import Mathlib

/-!
Verification development for the mcrouter parser core (`McParser.cpp`) and the
per-request routing context (`ProxyRequestContext.h`).

The wire parser is embedded shallowly: the folly IOBuf read buffer is modelled
as three regions (consumed headroom, pending bytes, writable tailroom), and the
member functions `getReadBuffer`, `shrinkBuffer`, `readUmbrellaOrCaretData` and
`readDataAvailable` are translated line by line.  The build modelled is the one
without `CAN_USE_JEMALLOC_NODUMP_ALLOCATOR` (the constructor forces
`useJemallocNodumpAllocator_ = false` in that build, and the nodump copy is
compiled out).  `unshare()` is a no-op for a singly-owned buffer and is dropped.

The binary header parsers (`umbrellaParseHeader` / `caretParseHeader`),
`determineProtocol` and `mc_protocol_to_string` are declared in headers that are
not part of this source slice; they are modelled from the spec where marked.
-/

namespace Mcrouter

/-- The four protocol values of `mc_protocol_t` that the parser distinguishes. -/
inductive McProtocol
  | ascii
  | umbrella
  | caret
  | unknown
deriving DecidableEq, Repr

/-- Reply/result code used by `parseError`; only `mc_res_remote_error` occurs here. -/
inductive McResult
  | remoteError
deriving DecidableEq, Repr

/-- `UmbrellaMessageInfo`: the frame descriptor filled in by a header parse. -/
structure UmbrellaMessageInfo where
  headerSize : Nat
  bodySize : Nat
  typeId : Nat
  reqid : Nat
deriving DecidableEq, Repr

/-- `UmbrellaParseStatus` together with the out-parameter of a successful parse. -/
inductive ParseResult
  | ok (info : UmbrellaMessageInfo)
  | notEnoughData
  | malformed
deriving DecidableEq, Repr

/-- Modelled from the spec: human-readable protocol name used in the
`"Error parsing <proto> header"` message (`mc_protocol_to_string` is declared
outside this source slice). -/
def mcProtocolToString : McProtocol → String
  | .ascii => "ascii"
  | .umbrella => "umbrella"
  | .caret => "caret"
  | .unknown => "unknown"

/-- Modelled from the spec: the Caret magic byte.  The spec fixes only that it is
a single magic value disjoint from the Umbrella and ASCII first-byte classes. -/
def caretMagicByte : Nat := 0x5e

/-- Modelled from the spec: Umbrella first bytes are `0x80 … 0x8F`. -/
def isUmbrellaMagic (b : Nat) : Bool := decide (0x80 ≤ b ∧ b ≤ 0x8f)

/-- Modelled from the spec: a printable ASCII letter beginning a command verb
(all memcached ASCII verbs start with a lowercase letter). -/
def isAsciiVerbByte (b : Nat) : Bool := decide (0x61 ≤ b ∧ b ≤ 0x7a)

/-- Modelled from the spec: `determineProtocol` classifies the connection from
its first byte; bytes outside all known protocol classes fail detection
(`mc_unknown_protocol`). -/
def determineProtocol (b : Nat) : McProtocol :=
  if b = caretMagicByte then .caret
  else if isUmbrellaMagic b then .umbrella
  else if isAsciiVerbByte b then .ascii
  else .unknown

/-- Modelled from the spec: a fixed-layout binary header parser, a pure function
of the pending bytes.  The first 8 bytes carry magic, `headerSize` (at least the
8-byte fixed part), `bodySize`, `typeId` and `requestId`; with fewer than 8
bytes the result is `NOT_ENOUGH_DATA`, a wrong magic or undersized header is
malformed.  (`UmbrellaProtocol.cpp` is not part of this source slice; the spec
fixes the semantics but not the byte layout.) -/
def parseBinaryHeader (magicOk : Nat → Bool) (bs : List Nat) : ParseResult :=
  if bs.length < 8 then .notEnoughData
  else
    if magicOk (bs.getD 0 0) then
      if 8 ≤ bs.getD 1 0 then
        .ok ⟨bs.getD 1 0,
             bs.getD 2 0 * 65536 + bs.getD 3 0 * 256 + bs.getD 4 0,
             bs.getD 5 0,
             bs.getD 6 0 * 256 + bs.getD 7 0⟩
      else .malformed
    else .malformed

/-- `umbrellaParseHeader` specialised to the Umbrella magic class. -/
def umbrellaParseHeader (bs : List Nat) : ParseResult :=
  parseBinaryHeader isUmbrellaMagic bs

/-- `caretParseHeader` specialised to the Caret magic byte. -/
def caretParseHeader (bs : List Nat) : ParseResult :=
  parseBinaryHeader (fun b => b = caretMagicByte) bs

/-- The header parse performed at the top of the `readUmbrellaOrCaretData` loop:
`if (protocol_ == mc_umbrella_protocol) umbrellaParseHeader(...) else
caretParseHeader(...)`. -/
def binHeaderParse (proto : McProtocol) (bs : List Nat) : ParseResult :=
  if proto = McProtocol.umbrella then umbrellaParseHeader bs else caretParseHeader bs

theorem parseBinaryHeader_ok_headerSize {f : Nat → Bool} {bs : List Nat}
    {info : UmbrellaMessageInfo} (h : parseBinaryHeader f bs = .ok info) :
    8 ≤ info.headerSize := by
  unfold parseBinaryHeader at h
  split at h
  · exact absurd h (by simp)
  · split at h
    · split at h
      · rename_i h8
        cases h
        exact h8
      · exact absurd h (by simp)
    · exact absurd h (by simp)

theorem parseBinaryHeader_notEnoughData_iff {f : Nat → Bool} {bs : List Nat} :
    parseBinaryHeader f bs = .notEnoughData ↔ bs.length < 8 := by
  unfold parseBinaryHeader
  split
  · simp_all
  · constructor
    · intro h
      split at h <;> [skip; exact absurd h (by simp)]
      split at h <;> exact absurd h (by simp)
    · omega

theorem parseBinaryHeader_append {f : Nat → Bool} {bs : List Nat} (ys : List Nat)
    (h : 8 ≤ bs.length) :
    parseBinaryHeader f (bs ++ ys) = parseBinaryHeader f bs := by
  unfold parseBinaryHeader
  have hlen : ¬ (bs ++ ys).length < 8 := by
    simp only [List.length_append]
    omega
  have hg : ∀ i, i < 8 → (bs ++ ys).getD i 0 = bs.getD i 0 := by
    intro i hi
    have : i < bs.length := by omega
    simp [List.getD, List.getElem?_append_left this]
  simp only [hlen, if_false, Nat.not_lt.mpr h, if_neg (by omega : ¬ bs.length < 8),
    hg 0 (by omega), hg 1 (by omega), hg 2 (by omega), hg 3 (by omega),
    hg 4 (by omega), hg 5 (by omega), hg 6 (by omega), hg 7 (by omega)]

theorem binHeaderParse_ok_headerSize {proto : McProtocol} {bs : List Nat}
    {info : UmbrellaMessageInfo} (h : binHeaderParse proto bs = .ok info) :
    8 ≤ info.headerSize := by
  unfold binHeaderParse at h
  split at h <;>
    exact parseBinaryHeader_ok_headerSize h

theorem binHeaderParse_notEnoughData_iff {proto : McProtocol} {bs : List Nat} :
    binHeaderParse proto bs = .notEnoughData ↔ bs.length < 8 := by
  unfold binHeaderParse
  split <;> exact parseBinaryHeader_notEnoughData_iff

theorem binHeaderParse_append {proto : McProtocol} {bs : List Nat} (ys : List Nat)
    (h : 8 ≤ bs.length) :
    binHeaderParse proto (bs ++ ys) = binHeaderParse proto bs := by
  unfold binHeaderParse
  split <;> exact parseBinaryHeader_append ys h

theorem binHeaderParse_ok_length {proto : McProtocol} {bs : List Nat}
    {info : UmbrellaMessageInfo} (h : binHeaderParse proto bs = .ok info) :
    8 ≤ bs.length := by
  by_contra hlt
  rw [(@binHeaderParse_notEnoughData_iff proto bs).mpr (by omega)] at h
  exact absurd h (by simp)

theorem binHeaderParse_malformed_length {proto : McProtocol} {bs : List Nat}
    (h : binHeaderParse proto bs = .malformed) : 8 ≤ bs.length := by
  by_contra hlt
  rw [(@binHeaderParse_notEnoughData_iff proto bs).mpr (by omega)] at h
  exact absurd h (by simp)

/-- `kAdjustBufferSizeInterval`: adjust buffer size after this many requests. -/
def kAdjustBufferSizeInterval : Nat := 10000

/-- The state of a `McParser` together with its folly IOBuf read buffer.  The
buffer is modelled by its three regions: `headroom` (consumed prefix, in bytes),
`pending` (the unparsed bytes, i.e. `data()`/`length()`), and `tailroom`
(writable tail capacity). -/
structure McParserState where
  /-- `bufferSize_`, the target size the buffer is (re)allocated to. -/
  bufferSize : Nat
  /-- `maxBufferSize_`, the shrink threshold. -/
  maxBufferSize : Nat
  /-- Bytes between the buffer start and `data()` (consumed prefix). -/
  headroom : Nat
  /-- The pending region: bytes received but not yet consumed. -/
  pending : List Nat
  /-- Writable capacity after the pending region. -/
  tailroom : Nat
  /-- `seenFirstByte_`. -/
  seenFirstByte : Bool
  /-- `protocol_`. -/
  protocol : McProtocol
  /-- `outOfOrder_`. -/
  outOfOrder : Bool
  /-- `parsedMessages_`, the counter consulted by `shrinkBuffer`. -/
  parsedMessages : Nat
deriving DecidableEq, Repr

/-- `readBuffer_.capacity()`: total size of the underlying allocation. -/
def capacity (s : McParserState) : Nat :=
  s.headroom + s.pending.length + s.tailroom

/-- The state after the constructor: a fresh `IOBuf(CREATE, minBufferSize)`,
nothing seen, `protocol_ = mc_unknown_protocol`, counters zero. -/
def initState (minBufferSize maxBufferSize : Nat) : McParserState :=
  { bufferSize := minBufferSize
    maxBufferSize := maxBufferSize
    headroom := 0
    pending := []
    tailroom := minBufferSize
    seenFirstByte := false
    protocol := .unknown
    outOfOrder := false
    parsedMessages := 0 }

/-- folly `IOBuf::reserve(0, minTail)`: ensure at least `minTail` tailroom.
If the existing tailroom suffices, nothing happens; if moving the pending bytes
over the headroom frees enough room, the data is memmoved to the front; else the
buffer is reallocated to `length + minTail`. -/
def ioReserveTail (minTail : Nat) (s : McParserState) : McParserState :=
  if minTail ≤ s.tailroom then s
  else if minTail ≤ s.headroom + s.tailroom then
    { s with headroom := 0, tailroom := s.headroom + s.tailroom }
  else
    { s with headroom := 0, tailroom := minTail }

/-- `McParser::shrinkBuffer`: replace an oversized, fully-drained buffer with a
fresh allocation of `min(bufferSize_, maxBufferSize_)` bytes and reset the
message counter. -/
def shrinkBuffer (s : McParserState) : McParserState :=
  if kAdjustBufferSizeInterval ≤ s.parsedMessages ∧ s.maxBufferSize < capacity s ∧
      s.pending = [] then
    { s with parsedMessages := 0
             bufferSize := min s.bufferSize s.maxBufferSize
             headroom := 0
             pending := []
             tailroom := min s.bufferSize s.maxBufferSize }
  else s

/-- `McParser::getReadBuffer`: perform exactly one buffer adjustment and return
the adjusted state together with `max_len = min(tailroom(), bufferSize_)`.
`unshare()` is a no-op for the singly-owned model. -/
def getReadBuffer (s : McParserState) : McParserState × Nat :=
  let s' :=
    if s.pending = [] ∧ 0 < capacity s then
      { s with headroom := 0, tailroom := capacity s }
    else if 0 < s.headroom then
      { s with headroom := 0, tailroom := s.tailroom + s.headroom }
    else
      ioReserveTail s.bufferSize s
  (s', min s'.tailroom s.bufferSize)

/-- Events observable at the `ParserCallback` interface. -/
inductive PEvent
  /-- `umMessageReady(info, readBuffer_)`; `frame` is the first
  `headerSize + bodySize` pending bytes, which the callback consumes. -/
  | umMessage (info : UmbrellaMessageInfo) (frame : List Nat)
  /-- `caretMessageReady(info, readBuffer_)`. -/
  | caretMessage (info : UmbrellaMessageInfo) (frame : List Nat)
  /-- `parseError(result, reason)`. -/
  | parseError (code : McResult) (msg : String)
  /-- `handleAscii(readBuffer_)`: the whole pending region handed down. -/
  | asciiData (bytes : List Nat)
deriving DecidableEq, Repr

/-- The frame deliveries among a list of callback events. -/
def framesOf (evs : List PEvent) : List PEvent :=
  evs.filter fun e =>
    match e with
    | .umMessage _ _ => true
    | .caretMessage _ _ => true
    | _ => false

/-- The message of the malformed-header `parseError`. -/
def parseErrorMsg (proto : McProtocol) : String :=
  "Error parsing " ++ mcProtocolToString proto ++ " header"

/-- A callback policy: the boolean a `umMessageReady`/`caretMessageReady`
callback returns for a given delivered frame. -/
def CbPolicy : Type := McProtocol → UmbrellaMessageInfo → List Nat → Bool

/-- The loop body of `McParser::readUmbrellaOrCaretData`, with an explicit fuel
so that the recursion is structural (each delivered frame consumes
`headerSize + bodySize ≥ 8` pending bytes, so `pending.length + 1` fuel always
suffices).  Returns the final state, the boolean result, and the emitted
callback events in order. -/
def readLoopF (cb : CbPolicy) : Nat → McParserState → McParserState × Bool × List PEvent
  | 0, s => (s, true, [])
  | fuel + 1, s =>
    if s.pending = [] then (s, true, [])
    else
      match binHeaderParse s.protocol s.pending with
      | .notEnoughData => (s, true, [])
      | .malformed =>
        (s, false, [.parseError .remoteError (parseErrorMsg s.protocol)])
      | .ok info =>
        let messageSize := info.headerSize + info.bodySize
        if messageSize ≤ s.pending.length then
          let frame := s.pending.take messageSize
          let ev := if s.protocol = McProtocol.umbrella
                    then PEvent.umMessage info frame
                    else PEvent.caretMessage info frame
          if cb s.protocol info frame then
            let r := readLoopF cb fuel
              { s with headroom := s.headroom + messageSize
                       pending := s.pending.drop messageSize }
            (r.1, r.2.1, ev :: r.2.2)
          else
            ({ s with headroom := 0, pending := []
                      tailroom := s.headroom + s.pending.length + s.tailroom },
             false, [ev])
        else if s.pending.length < info.headerSize then (s, true, [])
        else if s.pending.length + s.tailroom <
            info.headerSize + info.bodySize then
          let bufferSize' := max s.bufferSize messageSize
          (ioReserveTail (bufferSize' - s.pending.length)
            { s with bufferSize := bufferSize' }, true, [])
        else (s, true, [])

/-- `McParser::readUmbrellaOrCaretData`. -/
def readUmbrellaOrCaretData (cb : CbPolicy) (s : McParserState) :
    McParserState × Bool × List PEvent :=
  readLoopF cb (s.pending.length + 1) s

/-- The pure shadow of the dispatch loop: the events, the leftover pending bytes
and the boolean result depend only on the protocol and the pending byte list. -/
def loopSpecF (cb : CbPolicy) (proto : McProtocol) :
    Nat → List Nat → List PEvent × List Nat × Bool
  | 0, p => ([], p, true)
  | fuel + 1, p =>
    if p = [] then ([], p, true)
    else
      match binHeaderParse proto p with
      | .notEnoughData => ([], p, true)
      | .malformed => ([.parseError .remoteError (parseErrorMsg proto)], p, false)
      | .ok info =>
        let messageSize := info.headerSize + info.bodySize
        if messageSize ≤ p.length then
          let frame := p.take messageSize
          let ev := if proto = McProtocol.umbrella
                    then PEvent.umMessage info frame
                    else PEvent.caretMessage info frame
          if cb proto info frame then
            let r := loopSpecF cb proto fuel (p.drop messageSize)
            (ev :: r.1, r.2)
          else ([ev], [], false)
        else ([], p, true)

/-- Saturated version of `loopSpecF`. -/
def loopSpec (cb : CbPolicy) (proto : McProtocol) (p : List Nat) :
    List PEvent × List Nat × Bool :=
  loopSpecF cb proto (p.length + 1) p

/-- The tail of `McParser::readDataAvailable` once the protocol is known: run
the binary dispatch loop and then `shrinkBuffer`, or hand the pending region to
`handleAscii`. -/
def dispatchProtocol (cb : CbPolicy) (s : McParserState) :
    McParserState × Bool × List PEvent :=
  if s.protocol = McProtocol.umbrella ∨ s.protocol = McProtocol.caret then
    let r := readUmbrellaOrCaretData cb s
    (shrinkBuffer r.1, r.2.1, r.2.2)
  else
    (s, true, [.asciiData s.pending])

/-- `readBuffer_.append(len)`: extend the pending region by the freshly written
bytes, consuming tailroom. -/
def ioAppend (s : McParserState) (bytes : List Nat) : McParserState :=
  { s with pending := s.pending ++ bytes
           tailroom := s.tailroom - bytes.length }

theorem ioAppend_pending (s : McParserState) (bytes : List Nat) :
    (ioAppend s bytes).pending = s.pending ++ bytes := rfl

theorem ioAppend_seenFirstByte (s : McParserState) (bytes : List Nat) :
    (ioAppend s bytes).seenFirstByte = s.seenFirstByte := rfl

theorem ioAppend_protocol (s : McParserState) (bytes : List Nat) :
    (ioAppend s bytes).protocol = s.protocol := rfl

/-- The first-byte detection assignments of `readDataAvailable`:
`seenFirstByte_ = true; protocol_ = proto;` and the `outOfOrder_` update. -/
def detectSet (s : McParserState) (proto : McProtocol) (ooo : Bool) : McParserState :=
  { s with seenFirstByte := true, protocol := proto, outOfOrder := ooo }

theorem detectSet_pending (s : McParserState) (p : McProtocol) (o : Bool) :
    (detectSet s p o).pending = s.pending := rfl

theorem detectSet_protocol (s : McParserState) (p : McProtocol) (o : Bool) :
    (detectSet s p o).protocol = p := rfl

theorem detectSet_seenFirstByte (s : McParserState) (p : McProtocol) (o : Bool) :
    (detectSet s p o).seenFirstByte = true := rfl

theorem detectSet_outOfOrder (s : McParserState) (p : McProtocol) (o : Bool) :
    (detectSet s p o).outOfOrder = o := rfl

theorem detectSet_bufferSize (s : McParserState) (p : McProtocol) (o : Bool) :
    (detectSet s p o).bufferSize = s.bufferSize := rfl

theorem detectSet_maxBufferSize (s : McParserState) (p : McProtocol) (o : Bool) :
    (detectSet s p o).maxBufferSize = s.maxBufferSize := rfl

theorem ioAppend_bufferSize (s : McParserState) (bytes : List Nat) :
    (ioAppend s bytes).bufferSize = s.bufferSize := rfl

theorem ioAppend_maxBufferSize (s : McParserState) (bytes : List Nat) :
    (ioAppend s bytes).maxBufferSize = s.maxBufferSize := rfl

/-- `McParser::readDataAvailable(len)`: append the freshly written bytes to the
pending region, detect the protocol on the first byte if necessary, and
dispatch. -/
def readDataAvailable (cb : CbPolicy) (s : McParserState) (bytes : List Nat) :
    McParserState × Bool × List PEvent :=
  let sA := ioAppend s bytes
  if sA.pending = [] then (sA, true, [])
  else if sA.seenFirstByte then dispatchProtocol cb sA
  else
    let proto := determineProtocol sA.pending.headI
    if proto = McProtocol.umbrella ∨ proto = McProtocol.caret then
      dispatchProtocol cb (detectSet sA proto true)
    else if proto = McProtocol.ascii then
      dispatchProtocol cb (detectSet sA proto false)
    else
      (detectSet sA proto sA.outOfOrder, false, [])

/-- A driver performing acquire/commit/dispatch cycles: each cycle acquires the
write region via `getReadBuffer`, commits `min(max_len, limit)` of the remaining
input bytes, and dispatches via `readDataAvailable`, stopping when the parser
reports failure.  `limit = 1` feeds one byte at a time; a `limit` at least the
input length feeds as much as the buffer accepts at once.  Fueled structurally
by the remaining input length. -/
def driveF (cb : CbPolicy) (limit : Nat) :
    Nat → McParserState → List Nat → McParserState × Bool × List PEvent
  | 0, s, _ => (s, true, [])
  | _ + 1, s, [] => (s, true, [])
  | fuel + 1, s, b :: rest =>
    let a := getReadBuffer s
    let k := min a.2 limit
    if k = 0 then (a.1, false, [])
    else
      let r := readDataAvailable cb a.1 ((b :: rest).take k)
      if r.2.1 then
        let r2 := driveF cb limit fuel r.1 ((b :: rest).drop k)
        (r2.1, r2.2.1, r.2.2 ++ r2.2.2)
      else (r.1, false, r.2.2)

/-- Feed `input` through repeated acquire/commit/dispatch cycles. -/
def drive (cb : CbPolicy) (limit : Nat) (s : McParserState) (input : List Nat) :
    McParserState × Bool × List PEvent :=
  driveF cb limit (input.length + 1) s input

theorem ioReserveTail_pending (t : Nat) (s : McParserState) :
    (ioReserveTail t s).pending = s.pending := by
  unfold ioReserveTail
  split
  · rfl
  · split <;> rfl

theorem ioReserveTail_fieldsPreserved (t : Nat) (s : McParserState) :
    (ioReserveTail t s).protocol = s.protocol ∧
    (ioReserveTail t s).seenFirstByte = s.seenFirstByte ∧
    (ioReserveTail t s).outOfOrder = s.outOfOrder ∧
    (ioReserveTail t s).maxBufferSize = s.maxBufferSize ∧
    (ioReserveTail t s).bufferSize = s.bufferSize ∧
    (ioReserveTail t s).parsedMessages = s.parsedMessages := by
  unfold ioReserveTail
  split <;> [exact ⟨rfl, rfl, rfl, rfl, rfl, rfl⟩; skip]
  split <;> exact ⟨rfl, rfl, rfl, rfl, rfl, rfl⟩

theorem ioReserveTail_le_tailroom (t : Nat) (s : McParserState) :
    t ≤ (ioReserveTail t s).tailroom := by
  unfold ioReserveTail
  split
  · omega
  · split
    · simp
      omega
    · simp

theorem readLoopF_spec (cb : CbPolicy) : ∀ (fuel : Nat) (s : McParserState),
    (readLoopF cb fuel s).2.2 = (loopSpecF cb s.protocol fuel s.pending).1 ∧
    (readLoopF cb fuel s).1.pending = (loopSpecF cb s.protocol fuel s.pending).2.1 ∧
    (readLoopF cb fuel s).2.1 = (loopSpecF cb s.protocol fuel s.pending).2.2 ∧
    (readLoopF cb fuel s).1.protocol = s.protocol ∧
    (readLoopF cb fuel s).1.seenFirstByte = s.seenFirstByte ∧
    (readLoopF cb fuel s).1.outOfOrder = s.outOfOrder ∧
    (readLoopF cb fuel s).1.maxBufferSize = s.maxBufferSize ∧
    s.bufferSize ≤ (readLoopF cb fuel s).1.bufferSize ∧
    (readLoopF cb fuel s).1.parsedMessages = s.parsedMessages := by
  intro fuel
  induction fuel with
  | zero =>
    intro s
    simp [readLoopF, loopSpecF]
  | succ n ih =>
    intro s
    by_cases hp : s.pending = []
    · simp [readLoopF, loopSpecF, hp]
    · simp only [readLoopF, loopSpecF, hp, if_neg, ite_false]
      cases hps : binHeaderParse s.protocol s.pending with
      | notEnoughData => simp
      | malformed => simp
      | ok info =>
        simp only
        by_cases hle : info.headerSize + info.bodySize ≤ s.pending.length
        · simp only [hle, if_pos, ite_true]
          by_cases hcb : cb s.protocol info
              (s.pending.take (info.headerSize + info.bodySize)) = true
          · simp only [hcb, ite_true]
            have h2 := ih { s with
              headroom := s.headroom + (info.headerSize + info.bodySize)
              pending := s.pending.drop (info.headerSize + info.bodySize) }
            simp only at h2
            refine ⟨by simp [h2.1], by simp [h2.2.1], by simp [h2.2.2.1],
              h2.2.2.2.1, h2.2.2.2.2.1, h2.2.2.2.2.2.1, h2.2.2.2.2.2.2.1,
              h2.2.2.2.2.2.2.2.1, h2.2.2.2.2.2.2.2.2⟩
          · simp only [hcb, ite_false, Bool.false_eq_true]
            simp
        · simp only [hle, if_neg, ite_false]
          by_cases hhd : s.pending.length < info.headerSize
          · simp [hhd]
          · simp only [hhd, if_neg, ite_false]
            by_cases hgr : s.pending.length + s.tailroom <
                info.headerSize + info.bodySize
            swap
            · simp [hgr]
            simp only [hgr, if_pos, ite_true]
            have hf := ioReserveTail_fieldsPreserved
              ((max s.bufferSize (info.headerSize + info.bodySize)) - s.pending.length)
              { s with bufferSize := max s.bufferSize (info.headerSize + info.bodySize) }
            have hpnd := ioReserveTail_pending
              ((max s.bufferSize (info.headerSize + info.bodySize)) - s.pending.length)
              { s with bufferSize := max s.bufferSize (info.headerSize + info.bodySize) }
            obtain ⟨f1, f2, f3, f4, f5, f6⟩ := hf
            refine ⟨?_, ?_, ?_, ?_, ?_, ?_, ?_, ?_, ?_⟩ <;>
              first
              | (simp [f1, f2, f3, f4, f5, f6, hpnd]; omega)
              | simp [f1, f2, f3, f4, f5, f6, hpnd]

theorem loopSpecF_irrel (cb : CbPolicy) (proto : McProtocol) :
    ∀ (g1 g2 : Nat) (p : List Nat), p.length < g1 → p.length < g2 →
      loopSpecF cb proto g1 p = loopSpecF cb proto g2 p := by
  intro g1
  induction g1 with
  | zero => intro g2 p h1 _; omega
  | succ n ih =>
    intro g2 p h1 h2
    cases g2 with
    | zero => omega
    | succ m =>
      by_cases hp : p = []
      · simp [loopSpecF, hp]
      · simp only [loopSpecF, hp, ite_false, if_neg]
        cases hps : binHeaderParse proto p with
        | notEnoughData => rfl
        | malformed => rfl
        | ok info =>
          have h8 := binHeaderParse_ok_headerSize hps
          have hlp := binHeaderParse_ok_length hps
          simp only
          by_cases hle : info.headerSize + info.bodySize ≤ p.length
          · simp only [hle, ite_true, if_pos]
            by_cases hcb : cb proto info
                (p.take (info.headerSize + info.bodySize)) = true
            · simp only [hcb, ite_true]
              rw [ih m (p.drop (info.headerSize + info.bodySize))
                (by simp; omega) (by simp; omega)]
            · simp [hcb]
          · simp [hle]

theorem loopSpec_notEnough {cb : CbPolicy} {proto : McProtocol} {p : List Nat}
    (h : binHeaderParse proto p = .notEnoughData) :
    loopSpec cb proto p = ([], p, true) := by
  unfold loopSpec
  by_cases hp : p = [] <;> simp [loopSpecF, hp, h]

theorem loopSpec_malformed {cb : CbPolicy} {proto : McProtocol} {p : List Nat}
    (h : binHeaderParse proto p = .malformed) :
    loopSpec cb proto p =
      ([.parseError .remoteError (parseErrorMsg proto)], p, false) := by
  have hlen := binHeaderParse_malformed_length h
  have hp : p ≠ [] := by
    intro e
    subst e
    simp at hlen
  unfold loopSpec
  simp [loopSpecF, hp, h]

theorem loopSpec_wait {cb : CbPolicy} {proto : McProtocol} {p : List Nat}
    {info : UmbrellaMessageInfo} (h : binHeaderParse proto p = .ok info)
    (hlt : p.length < info.headerSize + info.bodySize) :
    loopSpec cb proto p = ([], p, true) := by
  have hlen := binHeaderParse_ok_length h
  have hp : p ≠ [] := by
    intro e
    subst e
    simp at hlen
  unfold loopSpec
  simp [loopSpecF, hp, h, Nat.not_le.mpr hlt]

theorem loopSpec_deliver {cb : CbPolicy} {proto : McProtocol} {p : List Nat}
    {info : UmbrellaMessageInfo} (h : binHeaderParse proto p = .ok info)
    (hle : info.headerSize + info.bodySize ≤ p.length)
    (hcb : cb proto info (p.take (info.headerSize + info.bodySize)) = true) :
    loopSpec cb proto p =
      ((if proto = McProtocol.umbrella
        then PEvent.umMessage info (p.take (info.headerSize + info.bodySize))
        else PEvent.caretMessage info (p.take (info.headerSize + info.bodySize))) ::
          (loopSpec cb proto (p.drop (info.headerSize + info.bodySize))).1,
        (loopSpec cb proto (p.drop (info.headerSize + info.bodySize))).2) := by
  have h8 := binHeaderParse_ok_headerSize h
  have hlen := binHeaderParse_ok_length h
  have hp : p ≠ [] := by
    intro e
    subst e
    simp at hlen
  conv_lhs => unfold loopSpec loopSpecF
  simp only [hp, ite_false, if_neg, h, hle, ite_true, if_pos, hcb]
  rw [loopSpecF_irrel cb proto p.length ((p.drop (info.headerSize + info.bodySize)).length + 1)
    (p.drop (info.headerSize + info.bodySize)) (by simp; omega) (by simp)]
  rfl

theorem loopSpec_deliver_stop {cb : CbPolicy} {proto : McProtocol} {p : List Nat}
    {info : UmbrellaMessageInfo} (h : binHeaderParse proto p = .ok info)
    (hle : info.headerSize + info.bodySize ≤ p.length)
    (hcb : cb proto info (p.take (info.headerSize + info.bodySize)) = false) :
    loopSpec cb proto p =
      ([if proto = McProtocol.umbrella
        then PEvent.umMessage info (p.take (info.headerSize + info.bodySize))
        else PEvent.caretMessage info (p.take (info.headerSize + info.bodySize))],
       [], false) := by
  have hlen := binHeaderParse_ok_length h
  have hp : p ≠ [] := by
    intro e
    subst e
    simp at hlen
  unfold loopSpec
  simp [loopSpecF, hp, h, hle, hcb]

theorem loopSpec_nil (cb : CbPolicy) (proto : McProtocol) :
    loopSpec cb proto [] = ([], [], true) := rfl

theorem loopSpec_rest_quiescent (cb : CbPolicy) (proto : McProtocol) :
    ∀ (n : Nat) (p : List Nat), p.length ≤ n →
      (loopSpec cb proto p).2.2 = true →
      loopSpec cb proto ((loopSpec cb proto p).2.1) =
        ([], (loopSpec cb proto p).2.1, true) := by
  intro n
  induction n with
  | zero =>
    intro p hlen _
    have hp : p = [] := by cases p <;> simp_all
    subst hp
    simp [loopSpec_nil]
  | succ n ih =>
    intro p hlen htrue
    by_cases hp : p = []
    · subst hp
      simp [loopSpec_nil]
    · cases hps : binHeaderParse proto p with
      | notEnoughData =>
        rw [loopSpec_notEnough hps]
        exact loopSpec_notEnough hps
      | malformed =>
        rw [loopSpec_malformed hps] at htrue
        simp at htrue
      | ok info =>
        have h8 := binHeaderParse_ok_headerSize hps
        by_cases hle : info.headerSize + info.bodySize ≤ p.length
        · by_cases hcb : cb proto info
              (p.take (info.headerSize + info.bodySize)) = true
          · rw [loopSpec_deliver hps hle hcb] at htrue ⊢
            simp only at htrue ⊢
            exact ih (p.drop (info.headerSize + info.bodySize))
              (by simp; omega) htrue
          · rw [loopSpec_deliver_stop hps hle
              (by simpa using hcb)] at htrue
            simp at htrue
        · have hlt : p.length < info.headerSize + info.bodySize := by omega
          rw [loopSpec_wait hps hlt]
          simpa using @loopSpec_wait cb proto p info hps hlt

theorem loopSpec_quiescent {cb : CbPolicy} {proto : McProtocol} {p : List Nat}
    (h : (loopSpec cb proto p).2.2 = true) :
    loopSpec cb proto ((loopSpec cb proto p).2.1) =
      ([], (loopSpec cb proto p).2.1, true) :=
  loopSpec_rest_quiescent cb proto p.length p le_rfl h

theorem loopSpec_fuse (cb : CbPolicy) (proto : McProtocol) :
    ∀ (n : Nat) (p ys : List Nat), p.length ≤ n →
      ((loopSpec cb proto p).2.2 = true →
        loopSpec cb proto (p ++ ys) =
          ((loopSpec cb proto p).1 ++
            (loopSpec cb proto ((loopSpec cb proto p).2.1 ++ ys)).1,
           (loopSpec cb proto ((loopSpec cb proto p).2.1 ++ ys)).2)) ∧
      ((loopSpec cb proto p).2.2 = false →
        (loopSpec cb proto (p ++ ys)).1 = (loopSpec cb proto p).1 ∧
        (loopSpec cb proto (p ++ ys)).2.2 = false) := by
  intro n
  induction n with
  | zero =>
    intro p ys hlen
    have hp : p = [] := by cases p <;> simp_all
    subst hp
    constructor
    · intro _
      simp [loopSpec_nil]
    · intro hfalse
      simp [loopSpec_nil] at hfalse
  | succ n ih =>
    intro p ys hlen
    by_cases hp : p = []
    · subst hp
      constructor
      · intro _
        simp [loopSpec_nil]
      · intro hfalse
        simp [loopSpec_nil] at hfalse
    · cases hps : binHeaderParse proto p with
      | notEnoughData =>
        rw [loopSpec_notEnough hps]
        constructor
        · intro _
          simp
        · intro hfalse
          simp at hfalse
      | malformed =>
        have hps' : binHeaderParse proto (p ++ ys) = .malformed := by
          rw [binHeaderParse_append ys (binHeaderParse_malformed_length hps)]
          exact hps
        rw [loopSpec_malformed hps, loopSpec_malformed hps']
        constructor
        · intro htrue
          simp at htrue
        · intro _
          exact ⟨rfl, rfl⟩
      | ok info =>
        have h8 := binHeaderParse_ok_headerSize hps
        have hlp := binHeaderParse_ok_length hps
        have hps' : binHeaderParse proto (p ++ ys) = .ok info := by
          rw [binHeaderParse_append ys hlp]
          exact hps
        by_cases hle : info.headerSize + info.bodySize ≤ p.length
        · have hle' : info.headerSize + info.bodySize ≤ (p ++ ys).length := by
            simp
            omega
          have htake : (p ++ ys).take (info.headerSize + info.bodySize) =
              p.take (info.headerSize + info.bodySize) :=
            List.take_append_of_le_length hle
          have hdrop : (p ++ ys).drop (info.headerSize + info.bodySize) =
              p.drop (info.headerSize + info.bodySize) ++ ys :=
            List.drop_append_of_le_length hle
          by_cases hcb : cb proto info
              (p.take (info.headerSize + info.bodySize)) = true
          · have hcb' : cb proto info
                ((p ++ ys).take (info.headerSize + info.bodySize)) = true := by
              rw [htake]
              exact hcb
            have hstep := @loopSpec_deliver cb proto p info hps hle hcb
            have hstep' := @loopSpec_deliver cb proto (p ++ ys) info hps' hle' hcb'
            rw [htake, hdrop] at hstep'
            have ihd := ih (p.drop (info.headerSize + info.bodySize)) ys
              (by simp; omega)
            constructor
            · intro htrue
              rw [hstep] at htrue
              simp only at htrue
              rw [hstep', hstep, ihd.1 htrue]
              simp
            · intro hfalse
              rw [hstep] at hfalse
              simp only at hfalse
              obtain ⟨hev, hret⟩ := ihd.2 hfalse
              rw [hstep', hstep]
              simp only
              constructor
              · rw [hev]
              · rw [hret]
          · have hcb2 : cb proto info
                (p.take (info.headerSize + info.bodySize)) = false := by
              simpa using hcb
            have hcb2' : cb proto info
                ((p ++ ys).take (info.headerSize + info.bodySize)) = false := by
              rw [htake]
              exact hcb2
            rw [loopSpec_deliver_stop hps hle hcb2,
              loopSpec_deliver_stop hps' hle' hcb2']
            constructor
            · intro htrue
              simp at htrue
            · intro _
              rw [htake]
              exact ⟨rfl, rfl⟩
        · rw [loopSpec_wait hps (by omega)]
          constructor
          · intro _
            simp
          · intro hfalse
            simp at hfalse

theorem loopSpec_fuse_true {cb : CbPolicy} {proto : McProtocol} {p : List Nat}
    (ys : List Nat) (h : (loopSpec cb proto p).2.2 = true) :
    loopSpec cb proto (p ++ ys) =
      ((loopSpec cb proto p).1 ++
        (loopSpec cb proto ((loopSpec cb proto p).2.1 ++ ys)).1,
       (loopSpec cb proto ((loopSpec cb proto p).2.1 ++ ys)).2) :=
  (loopSpec_fuse cb proto p.length p ys le_rfl).1 h

theorem loopSpec_fuse_false {cb : CbPolicy} {proto : McProtocol} {p : List Nat}
    (ys : List Nat) (h : (loopSpec cb proto p).2.2 = false) :
    (loopSpec cb proto (p ++ ys)).1 = (loopSpec cb proto p).1 ∧
    (loopSpec cb proto (p ++ ys)).2.2 = false :=
  (loopSpec_fuse cb proto p.length p ys le_rfl).2 h

theorem getReadBuffer_fieldsPreserved (s : McParserState) :
    (getReadBuffer s).1.pending = s.pending ∧
    (getReadBuffer s).1.protocol = s.protocol ∧
    (getReadBuffer s).1.seenFirstByte = s.seenFirstByte ∧
    (getReadBuffer s).1.outOfOrder = s.outOfOrder ∧
    (getReadBuffer s).1.maxBufferSize = s.maxBufferSize ∧
    (getReadBuffer s).1.bufferSize = s.bufferSize ∧
    (getReadBuffer s).1.parsedMessages = s.parsedMessages := by
  unfold getReadBuffer
  have hio := ioReserveTail_fieldsPreserved s.bufferSize s
  have hiop := ioReserveTail_pending s.bufferSize s
  split
  · exact ⟨rfl, rfl, rfl, rfl, rfl, rfl, rfl⟩
  · split
    · exact ⟨rfl, rfl, rfl, rfl, rfl, rfl, rfl⟩
    · exact ⟨hiop, hio.1, hio.2.1, hio.2.2.1, hio.2.2.2.1, hio.2.2.2.2.1,
        hio.2.2.2.2.2⟩

theorem getReadBuffer_maxLen_pos (s : McParserState) (h : 1 ≤ s.bufferSize) :
    1 ≤ (getReadBuffer s).2 := by
  unfold getReadBuffer
  split
  · rename_i hc
    simp only
    omega
  · split
    · rename_i hh
      simp only
      omega
    · have := ioReserveTail_le_tailroom s.bufferSize s
      simp only
      omega

theorem shrinkBuffer_fieldsPreserved (s : McParserState) :
    (shrinkBuffer s).pending = s.pending ∧
    (shrinkBuffer s).protocol = s.protocol ∧
    (shrinkBuffer s).seenFirstByte = s.seenFirstByte ∧
    (shrinkBuffer s).outOfOrder = s.outOfOrder ∧
    (shrinkBuffer s).maxBufferSize = s.maxBufferSize := by
  unfold shrinkBuffer
  split
  · rename_i hc
    exact ⟨hc.2.2.symm, rfl, rfl, rfl, rfl⟩
  · exact ⟨rfl, rfl, rfl, rfl, rfl⟩

theorem shrinkBuffer_bufferSize_pos (s : McParserState) (h1 : 1 ≤ s.bufferSize)
    (h2 : 1 ≤ s.maxBufferSize) : 1 ≤ (shrinkBuffer s).bufferSize := by
  unfold shrinkBuffer
  split
  · simp only
    omega
  · exact h1

theorem driveF_irrel (cb : CbPolicy) (limit : Nat) :
    ∀ (g1 g2 : Nat) (s : McParserState) (input : List Nat),
      input.length < g1 → input.length < g2 →
      driveF cb limit g1 s input = driveF cb limit g2 s input := by
  intro g1
  induction g1 with
  | zero => intro g2 s input h1 _; omega
  | succ n ih =>
    intro g2 s input h1 h2
    cases g2 with
    | zero => omega
    | succ m =>
      cases input with
      | nil => rfl
      | cons b rest =>
        have hc : (b :: rest).length = rest.length + 1 := rfl
        simp only [driveF]
        by_cases hk : min (getReadBuffer s).2 limit = 0
        · simp [hk]
        · simp only [hk, ite_false, if_neg]
          have hk1 : 1 ≤ min (getReadBuffer s).2 limit := by omega
          rw [ih m (readDataAvailable cb (getReadBuffer s).1
              ((b :: rest).take (min (getReadBuffer s).2 limit))).1
              ((b :: rest).drop (min (getReadBuffer s).2 limit))
              (by simp only [List.length_drop]; omega)
              (by simp only [List.length_drop]; omega)]

theorem drive_nil (cb : CbPolicy) (limit : Nat) (s : McParserState) :
    drive cb limit s [] = (s, true, []) := rfl

theorem drive_cons (cb : CbPolicy) (limit : Nat) (s : McParserState)
    (b : Nat) (rest : List Nat) :
    drive cb limit s (b :: rest) =
      (let a := getReadBuffer s
       let k := min a.2 limit
       if k = 0 then (a.1, false, [])
       else
         let r := readDataAvailable cb a.1 ((b :: rest).take k)
         if r.2.1 then
           let r2 := drive cb limit r.1 ((b :: rest).drop k)
           (r2.1, r2.2.1, r.2.2 ++ r2.2.2)
         else (r.1, false, r.2.2)) := by
  have hc : (b :: rest).length = rest.length + 1 := rfl
  show driveF cb limit ((b :: rest).length + 1) s (b :: rest) = _
  simp only [driveF]
  by_cases hk : min (getReadBuffer s).2 limit = 0
  · simp [hk]
  · simp only [hk, ite_false, if_neg]
    have hk1 : 1 ≤ min (getReadBuffer s).2 limit := by omega
    rw [driveF_irrel cb limit (b :: rest).length
      (((b :: rest).drop (min (getReadBuffer s).2 limit)).length + 1)
      (readDataAvailable cb (getReadBuffer s).1
        ((b :: rest).take (min (getReadBuffer s).2 limit))).1
      ((b :: rest).drop (min (getReadBuffer s).2 limit))
      (by simp only [List.length_drop]; omega)
      (by simp only [List.length_drop]; omega)]
    rfl

theorem framesOf_append (a b : List PEvent) :
    framesOf (a ++ b) = framesOf a ++ framesOf b := by
  simp [framesOf]

theorem readDataAvailable_binary_spec (cb : CbPolicy) (s : McParserState)
    (bytes : List Nat) (hseen : s.seenFirstByte = true)
    (hproto : s.protocol = McProtocol.umbrella ∨ s.protocol = McProtocol.caret)
    (hne : s.pending ++ bytes ≠ []) :
    (readDataAvailable cb s bytes).2.2 =
      (loopSpec cb s.protocol (s.pending ++ bytes)).1 ∧
    (readDataAvailable cb s bytes).2.1 =
      (loopSpec cb s.protocol (s.pending ++ bytes)).2.2 ∧
    (readDataAvailable cb s bytes).1.pending =
      (loopSpec cb s.protocol (s.pending ++ bytes)).2.1 ∧
    (readDataAvailable cb s bytes).1.protocol = s.protocol ∧
    (readDataAvailable cb s bytes).1.seenFirstByte = true ∧
    (readDataAvailable cb s bytes).1.maxBufferSize = s.maxBufferSize ∧
    (1 ≤ s.bufferSize → 1 ≤ s.maxBufferSize →
      1 ≤ (readDataAvailable cb s bytes).1.bufferSize) := by
  have hs := readLoopF_spec cb ((ioAppend s bytes).pending.length + 1) (ioAppend s bytes)
  obtain ⟨he, hpnd, hret, hpr, hsn, hoo, hmx, hbs, hpm⟩ := hs
  have hsh := shrinkBuffer_fieldsPreserved
    (readLoopF cb ((ioAppend s bytes).pending.length + 1) (ioAppend s bytes)).1
  unfold readDataAvailable dispatchProtocol readUmbrellaOrCaretData
  simp only [ioAppend_pending, ioAppend_seenFirstByte, ioAppend_protocol,
    hne, ite_false, if_neg, hseen, ite_true, if_pos]
  split
  · refine ⟨he.trans ?_, hret.trans ?_, hsh.1.trans (hpnd.trans ?_),
      hsh.2.1.trans (hpr.trans ?_), hsh.2.2.1.trans (hsn.trans ?_),
      hsh.2.2.2.2.trans (hmx.trans ?_),
      fun h1 h2 => shrinkBuffer_bufferSize_pos _ (le_trans h1 hbs)
        (le_of_le_of_eq h2 hmx.symm)⟩
    · rfl
    · rfl
    · rfl
    · rfl
    · exact (ioAppend_seenFirstByte s bytes).trans hseen
    · rfl
  · rename_i hcond
    exact absurd hproto hcond

theorem readDataAvailable_nonbinary_spec (cb : CbPolicy) (s : McParserState)
    (bytes : List Nat) (hseen : s.seenFirstByte = true)
    (hproto : ¬(s.protocol = McProtocol.umbrella ∨ s.protocol = McProtocol.caret)) :
    (readDataAvailable cb s bytes).2.1 = true ∧
    framesOf (readDataAvailable cb s bytes).2.2 = [] ∧
    (readDataAvailable cb s bytes).1.protocol = s.protocol ∧
    (readDataAvailable cb s bytes).1.seenFirstByte = true := by
  unfold readDataAvailable dispatchProtocol
  by_cases hnil : s.pending ++ bytes = []
  · simp only [ioAppend_pending, hnil, ite_true, if_pos]
    refine ⟨?_, ?_, ?_, ?_⟩ <;>
      simp [framesOf, hseen, ioAppend_protocol, ioAppend_seenFirstByte]
  · simp only [ioAppend_pending, ioAppend_seenFirstByte, ioAppend_protocol,
      hnil, ite_false, if_neg, hseen, ite_true, if_pos]
    split
    · rename_i hcond
      exact absurd hcond hproto
    · exact ⟨rfl, rfl, rfl, hseen⟩

theorem drive_frames_nonbinary (cb : CbPolicy) (limit : Nat) :
    ∀ (n : Nat) (rest : List Nat) (s : McParserState), rest.length ≤ n →
      s.seenFirstByte = true →
      ¬(s.protocol = McProtocol.umbrella ∨ s.protocol = McProtocol.caret) →
      framesOf (drive cb limit s rest).2.2 = [] := by
  intro n
  induction n with
  | zero =>
    intro rest s hlen _ _
    have : rest = [] := by cases rest <;> simp_all
    subst this
    rw [drive_nil]
    rfl
  | succ n ih =>
    intro rest s hlen hseen hproto
    cases rest with
    | nil =>
      rw [drive_nil]
      rfl
    | cons b r0 =>
      rw [drive_cons]
      simp only
      by_cases hk : min (getReadBuffer s).2 limit = 0
      · simp [hk, framesOf]
      · simp only [hk, ite_false, if_neg]
        have hg := getReadBuffer_fieldsPreserved s
        have hr := readDataAvailable_nonbinary_spec cb (getReadBuffer s).1
          ((b :: r0).take (min (getReadBuffer s).2 limit))
          (by rw [hg.2.2.1]; exact hseen)
          (by rw [hg.2.1]; exact hproto)
        simp only [hr.1, ite_true, if_pos]
        rw [framesOf_append, hr.2.1,
          ih ((b :: r0).drop (min (getReadBuffer s).2 limit)) _
            (by simp only [List.length_drop]; simp at hlen ⊢; omega)
            hr.2.2.2 (by rw [hr.2.2.1, hg.2.1]; exact hproto)]
        rfl

theorem drive_frames_binary (cb : CbPolicy) (limit : Nat) (hlimit : 1 ≤ limit) :
    ∀ (n : Nat) (rest : List Nat) (s : McParserState), rest.length ≤ n →
      s.seenFirstByte = true →
      (s.protocol = McProtocol.umbrella ∨ s.protocol = McProtocol.caret) →
      1 ≤ s.bufferSize → 1 ≤ s.maxBufferSize →
      loopSpec cb s.protocol s.pending = ([], s.pending, true) →
      framesOf (drive cb limit s rest).2.2 =
        framesOf (loopSpec cb s.protocol (s.pending ++ rest)).1 := by
  intro n
  induction n with
  | zero =>
    intro rest s hlen _ _ _ _ hq
    have : rest = [] := by cases rest <;> simp_all
    subst this
    rw [drive_nil, List.append_nil, hq]
  | succ n ih =>
    intro rest s hlen hseen hproto hbs hmbs hq
    cases rest with
    | nil =>
      rw [drive_nil, List.append_nil, hq]
    | cons b r0 =>
      rw [drive_cons]
      simp only
      have hm := getReadBuffer_maxLen_pos s hbs
      have hk : ¬ (min (getReadBuffer s).2 limit = 0) := by omega
      simp only [hk, ite_false, if_neg]
      have hg := getReadBuffer_fieldsPreserved s
      have hk1 : 1 ≤ min (getReadBuffer s).2 limit := by omega
      have hcne : (b :: r0).take (min (getReadBuffer s).2 limit) ≠ [] := by
        intro he
        have hle := congrArg List.length he
        simp only [List.length_take, List.length_cons, List.length_nil] at hle
        omega
      have hne : (getReadBuffer s).1.pending ++
          (b :: r0).take (min (getReadBuffer s).2 limit) ≠ [] := by
        intro he
        rw [List.append_eq_nil] at he
        exact hcne he.2
      have hr := readDataAvailable_binary_spec cb (getReadBuffer s).1
        ((b :: r0).take (min (getReadBuffer s).2 limit))
        (by rw [hg.2.2.1]; exact hseen)
        (by rw [hg.2.1]; exact hproto)
        hne
      rw [hg.1, hg.2.1] at hr
      have hsplit : (s.pending ++ (b :: r0).take (min (getReadBuffer s).2 limit)) ++
          (b :: r0).drop (min (getReadBuffer s).2 limit) = s.pending ++ (b :: r0) := by
        rw [List.append_assoc, List.take_append_drop]
      by_cases hret : (loopSpec cb s.protocol
          (s.pending ++ (b :: r0).take (min (getReadBuffer s).2 limit))).2.2 = true
      · rw [hr.2.1]
        simp only [hret, ite_true, if_pos]
        have hquies := @loopSpec_quiescent cb s.protocol
          (s.pending ++ (b :: r0).take (min (getReadBuffer s).2 limit)) hret
        have hihres := ih ((b :: r0).drop (min (getReadBuffer s).2 limit))
          (readDataAvailable cb (getReadBuffer s).1
            ((b :: r0).take (min (getReadBuffer s).2 limit))).1
          (by simp only [List.length_drop]; simp at hlen ⊢; omega)
          hr.2.2.2.2.1
          (by rw [hr.2.2.2.1]; exact hproto)
          (hr.2.2.2.2.2.2 (by rw [hg.2.2.2.2.2.1]; exact hbs)
            (by rw [hg.2.2.2.2.1]; exact hmbs))
          (by rw [hr.2.2.2.2.2.1, hg.2.2.2.2.1]; exact hmbs)
          (by rw [hr.2.2.2.1, hr.2.2.1]; exact hquies)
        rw [framesOf_append, hr.1, hihres, hr.2.2.2.1, hr.2.2.1]
        have hfuse := @loopSpec_fuse_true cb s.protocol
          (s.pending ++ (b :: r0).take (min (getReadBuffer s).2 limit))
          ((b :: r0).drop (min (getReadBuffer s).2 limit)) hret
        rw [hsplit] at hfuse
        rw [hfuse, framesOf_append]
      · have hfalse : (loopSpec cb s.protocol
            (s.pending ++ (b :: r0).take (min (getReadBuffer s).2 limit))).2.2 =
            false := by
          cases hres : (loopSpec cb s.protocol
              (s.pending ++ (b :: r0).take (min (getReadBuffer s).2 limit))).2.2
          · rfl
          · exact absurd hres hret
        rw [hr.2.1]
        simp only [hfalse, ite_false, if_neg, Bool.false_eq_true]
        have hfuse := @loopSpec_fuse_false cb s.protocol
          (s.pending ++ (b :: r0).take (min (getReadBuffer s).2 limit))
          ((b :: r0).drop (min (getReadBuffer s).2 limit)) hfalse
        rw [hsplit] at hfuse
        rw [hr.1, hfuse.1]

theorem initState_fields (minB maxB : Nat) :
    (initState minB maxB).pending = [] ∧
    (initState minB maxB).seenFirstByte = false ∧
    (initState minB maxB).bufferSize = minB ∧
    (initState minB maxB).maxBufferSize = maxB := ⟨rfl, rfl, rfl, rfl⟩

theorem getReadBuffer_init (minB maxB : Nat) (h : 1 ≤ minB) :
    getReadBuffer (initState minB maxB) = (initState minB maxB, minB) := by
  have h0 : (0:Nat) < minB := h
  unfold getReadBuffer initState capacity
  simp [h0]

theorem dispatchProtocol_binary_spec (cb : CbPolicy) (s : McParserState)
    (hproto : s.protocol = McProtocol.umbrella ∨ s.protocol = McProtocol.caret) :
    (dispatchProtocol cb s).2.2 = (loopSpec cb s.protocol s.pending).1 ∧
    (dispatchProtocol cb s).2.1 = (loopSpec cb s.protocol s.pending).2.2 ∧
    (dispatchProtocol cb s).1.pending = (loopSpec cb s.protocol s.pending).2.1 ∧
    (dispatchProtocol cb s).1.protocol = s.protocol ∧
    (dispatchProtocol cb s).1.seenFirstByte = s.seenFirstByte ∧
    (dispatchProtocol cb s).1.maxBufferSize = s.maxBufferSize ∧
    (1 ≤ s.bufferSize → 1 ≤ s.maxBufferSize →
      1 ≤ (dispatchProtocol cb s).1.bufferSize) := by
  have hs := readLoopF_spec cb (s.pending.length + 1) s
  obtain ⟨he, hpnd, hret, hpr, hsn, hoo, hmx, hbs, hpm⟩ := hs
  have hsh := shrinkBuffer_fieldsPreserved (readLoopF cb (s.pending.length + 1) s).1
  unfold dispatchProtocol readUmbrellaOrCaretData
  split
  · exact ⟨he, hret, hsh.1.trans hpnd, hsh.2.1.trans hpr, hsh.2.2.1.trans hsn,
      hsh.2.2.2.2.trans hmx,
      fun h1 h2 => shrinkBuffer_bufferSize_pos _ (le_trans h1 hbs)
        (le_of_le_of_eq h2 hmx.symm)⟩
  · rename_i hcond
    exact absurd hproto hcond

theorem dispatchProtocol_nonbinary (cb : CbPolicy) (s : McParserState)
    (h : ¬(s.protocol = McProtocol.umbrella ∨ s.protocol = McProtocol.caret)) :
    dispatchProtocol cb s = (s, true, [.asciiData s.pending]) := by
  unfold dispatchProtocol
  rw [if_neg h]

/-- The frames the parser delivers for an entire input stream: classified by the
first byte; for a binary protocol, the frame deliveries of the saturated
dispatch loop on the full byte sequence; none for ascii (whose frames belong to
the external ascii sub-parser) and none when detection fails. -/
def canonicalFrames (cb : CbPolicy) : List Nat → List PEvent
  | [] => []
  | b :: r0 =>
    if determineProtocol b = McProtocol.umbrella ∨
        determineProtocol b = McProtocol.caret then
      framesOf (loopSpec cb (determineProtocol b) (b :: r0)).1
    else []

theorem drive_frames_canonical (cb : CbPolicy) (limit minB maxB : Nat)
    (hlimit : 1 ≤ limit) (hminB : 1 ≤ minB) (hmaxB : 1 ≤ maxB)
    (input : List Nat) :
    framesOf (drive cb limit (initState minB maxB) input).2.2 =
      canonicalFrames cb input := by
  cases input with
  | nil => rfl
  | cons b r0 =>
    rw [drive_cons]
    simp only
    rw [getReadBuffer_init minB maxB hminB]
    have hk1 : 1 ≤ min minB limit := by omega
    have hk : ¬ (min minB limit = 0) := by omega
    simp only [hk, ite_false, if_neg]
    have hcne : (b :: r0).take (min minB limit) ≠ [] := by
      intro he
      have hle := congrArg List.length he
      simp only [List.length_take, List.length_cons, List.length_nil] at hle
      omega
    have hchead : ((b :: r0).take (min minB limit)).headI = b := by
      obtain ⟨j, hj⟩ : ∃ j, min minB limit = j + 1 :=
        ⟨min minB limit - 1, by omega⟩
      rw [hj, List.take_succ_cons]
      rfl
    unfold readDataAvailable
    simp only [ioAppend_pending, ioAppend_seenFirstByte, ioAppend_protocol,
      List.nil_append]
    have hpinit : (initState minB maxB).pending = [] := rfl
    have hsinit : (initState minB maxB).seenFirstByte = false := rfl
    rw [hpinit, hsinit]
    simp only [List.nil_append, hcne, ite_false, if_neg, Bool.false_eq_true,
      hchead]
    by_cases hbin : determineProtocol b = McProtocol.umbrella ∨
        determineProtocol b = McProtocol.caret
    · rw [if_pos hbin]
      have hd := dispatchProtocol_binary_spec cb
        (detectSet (ioAppend (initState minB maxB)
          ((b :: r0).take (min minB limit))) (determineProtocol b) true)
        (by rw [detectSet_protocol]; exact hbin)
      rw [detectSet_protocol, detectSet_pending, ioAppend_pending, hpinit,
        List.nil_append] at hd
      by_cases hret : (loopSpec cb (determineProtocol b)
          ((b :: r0).take (min minB limit))).2.2 = true
      · rw [hd.2.1]
        simp only [hret, ite_true, if_pos]
        have hdrv := drive_frames_binary cb limit hlimit
          ((b :: r0).drop (min minB limit)).length
          ((b :: r0).drop (min minB limit))
          (dispatchProtocol cb
            (detectSet (ioAppend (initState minB maxB)
              ((b :: r0).take (min minB limit))) (determineProtocol b) true)).1
          le_rfl
          (hd.2.2.2.2.1.trans (detectSet_seenFirstByte _ _ _))
          (by rw [hd.2.2.2.1]; exact hbin)
          (hd.2.2.2.2.2.2
            (by rw [detectSet_bufferSize, ioAppend_bufferSize]; exact hminB)
            (by rw [detectSet_maxBufferSize, ioAppend_maxBufferSize]; exact hmaxB))
          (by
            rw [hd.2.2.2.2.2.1, detectSet_maxBufferSize, ioAppend_maxBufferSize]
            exact hmaxB)
          (by
            rw [hd.2.2.2.1, hd.2.2.1]
            exact loopSpec_quiescent hret)
        rw [framesOf_append, hd.1, hdrv, hd.2.2.2.1, hd.2.2.1]
        have hfuse := @loopSpec_fuse_true cb (determineProtocol b)
          ((b :: r0).take (min minB limit))
          ((b :: r0).drop (min minB limit)) hret
        rw [List.take_append_drop] at hfuse
        simp only [canonicalFrames]
        rw [if_pos hbin, hfuse, framesOf_append]
      · have hfalse : (loopSpec cb (determineProtocol b)
            ((b :: r0).take (min minB limit))).2.2 = false := by
          cases hres : (loopSpec cb (determineProtocol b)
              ((b :: r0).take (min minB limit))).2.2
          · rfl
          · exact absurd hres hret
        rw [hd.2.1]
        simp only [hfalse, ite_false, if_neg, Bool.false_eq_true]
        have hfuse := @loopSpec_fuse_false cb (determineProtocol b)
          ((b :: r0).take (min minB limit))
          ((b :: r0).drop (min minB limit)) hfalse
        rw [List.take_append_drop] at hfuse
        simp only [canonicalFrames]
        rw [if_pos hbin, hd.1, hfuse.1]
    · rw [if_neg hbin]
      by_cases hascii : determineProtocol b = McProtocol.ascii
      · rw [if_pos hascii]
        have hnb : ¬((detectSet (ioAppend (initState minB maxB)
              ((b :: r0).take (min minB limit))) (determineProtocol b)
              false).protocol = McProtocol.umbrella ∨
            (detectSet (ioAppend (initState minB maxB)
              ((b :: r0).take (min minB limit))) (determineProtocol b)
              false).protocol = McProtocol.caret) := by
          rw [detectSet_protocol]
          exact hbin
        rw [dispatchProtocol_nonbinary cb _ hnb]
        simp only [ite_true, if_pos]
        rw [framesOf_append]
        have hnb2 := drive_frames_nonbinary cb limit
          ((b :: r0).drop (min minB limit)).length
          ((b :: r0).drop (min minB limit)) _ le_rfl
          (detectSet_seenFirstByte _ _ _) hnb
        rw [hnb2]
        simp only [canonicalFrames]
        rw [if_neg hbin]
        rfl
      · rw [if_neg hascii]
        simp only [canonicalFrames]
        rw [if_neg hbin]
        rfl

theorem dispatchProtocol_outOfOrder (cb : CbPolicy) (s : McParserState) :
    (dispatchProtocol cb s).1.outOfOrder = s.outOfOrder := by
  unfold dispatchProtocol readUmbrellaOrCaretData
  split
  · exact (shrinkBuffer_fieldsPreserved _).2.2.2.1.trans
      (readLoopF_spec cb (s.pending.length + 1) s).2.2.2.2.2.1
  · rfl

theorem dispatchProtocol_seenFirstByte (cb : CbPolicy) (s : McParserState) :
    (dispatchProtocol cb s).1.seenFirstByte = s.seenFirstByte := by
  unfold dispatchProtocol readUmbrellaOrCaretData
  split
  · exact (shrinkBuffer_fieldsPreserved _).2.2.1.trans
      (readLoopF_spec cb (s.pending.length + 1) s).2.2.2.2.1
  · rfl

theorem dispatchProtocol_protocol (cb : CbPolicy) (s : McParserState) :
    (dispatchProtocol cb s).1.protocol = s.protocol := by
  unfold dispatchProtocol readUmbrellaOrCaretData
  split
  · exact (shrinkBuffer_fieldsPreserved _).2.1.trans
      (readLoopF_spec cb (s.pending.length + 1) s).2.2.2.1
  · rfl

/-- States of the parser reachable through acquire/commit/dispatch cycles,
regardless of the boolean each `readDataAvailable` call returned.  Each cycle
acquires the write region, commits at most `max_len` bytes and dispatches. -/
inductive ReachableAny (cb : CbPolicy) : McParserState → Prop
  | init (minB maxB : Nat) : ReachableAny cb (initState minB maxB)
  | step (s : McParserState) (bytes : List Nat) :
      ReachableAny cb s →
      bytes.length ≤ (getReadBuffer s).2 →
      ReachableAny cb (readDataAvailable cb (getReadBuffer s).1 bytes).1

/-- States of the parser reachable through cycles in which every
`readDataAvailable` call returned `true` (a driver stops feeding a connection
once the parser reports failure). -/
inductive ReachableOk (cb : CbPolicy) : McParserState → Prop
  | init (minB maxB : Nat) : ReachableOk cb (initState minB maxB)
  | step (s : McParserState) (bytes : List Nat) :
      ReachableOk cb s →
      bytes.length ≤ (getReadBuffer s).2 →
      (readDataAvailable cb (getReadBuffer s).1 bytes).2.1 = true →
      ReachableOk cb (readDataAvailable cb (getReadBuffer s).1 bytes).1

theorem readDataAvailable_invariant (cb : CbPolicy) (s : McParserState)
    (bytes : List Nat)
    (hinv1 : s.seenFirstByte = true → s.protocol ≠ McProtocol.unknown)
    (hinv2 : s.outOfOrder = true ↔
      (s.protocol = McProtocol.umbrella ∨ s.protocol = McProtocol.caret))
    (hret : (readDataAvailable cb s bytes).2.1 = true) :
    ((readDataAvailable cb s bytes).1.seenFirstByte = true →
      (readDataAvailable cb s bytes).1.protocol ≠ McProtocol.unknown) ∧
    ((readDataAvailable cb s bytes).1.outOfOrder = true ↔
      ((readDataAvailable cb s bytes).1.protocol = McProtocol.umbrella ∨
       (readDataAvailable cb s bytes).1.protocol = McProtocol.caret)) := by
  unfold readDataAvailable at hret ⊢
  by_cases hnil : (ioAppend s bytes).pending = []
  · simp only [hnil, ite_true, if_pos] at hret ⊢
    exact ⟨hinv1, hinv2⟩
  · simp only [hnil, ite_false, if_neg] at hret ⊢
    by_cases hseen : (ioAppend s bytes).seenFirstByte = true
    · simp only [hseen, ite_true, if_pos] at hret ⊢
      rw [dispatchProtocol_seenFirstByte, dispatchProtocol_protocol,
        dispatchProtocol_outOfOrder]
      exact ⟨hinv1, hinv2⟩
    · have hseen' : (ioAppend s bytes).seenFirstByte = false := by
        cases hv : (ioAppend s bytes).seenFirstByte
        · rfl
        · exact absurd hv hseen
      simp only [hseen', Bool.false_eq_true, ite_false, if_neg] at hret ⊢
      by_cases hb : determineProtocol (ioAppend s bytes).pending.headI =
          McProtocol.umbrella ∨
          determineProtocol (ioAppend s bytes).pending.headI = McProtocol.caret
      · simp only [hb, ite_true, if_pos] at hret ⊢
        rw [dispatchProtocol_seenFirstByte, dispatchProtocol_protocol,
          dispatchProtocol_outOfOrder, detectSet_protocol, detectSet_outOfOrder]
        constructor
        · intro _
          rcases hb with h1 | h1 <;> rw [h1] <;> intro hcon <;> exact absurd hcon (by simp)
        · simp only [true_iff]
          exact hb
      · simp only [hb, ite_false, if_neg] at hret ⊢
        by_cases ha : determineProtocol (ioAppend s bytes).pending.headI =
            McProtocol.ascii
        · simp only [ha, ite_true, if_pos] at hret ⊢
          rw [dispatchProtocol_seenFirstByte, dispatchProtocol_protocol,
            dispatchProtocol_outOfOrder, detectSet_protocol, detectSet_outOfOrder]
          constructor
          · intro _
            simp
          · simp
        · simp only [ha, ite_false, if_neg] at hret
          exact absurd hret (by simp)

/-- `RequestLoggerContext(poolName, ap, strippedRoutingPrefix, request, reply,
startTimeUs, endTimeUs)` as constructed by `onReplyReceived`; the request,
reply and access point are modelled by opaque identifiers. -/
structure RequestLoggerContext where
  poolName : String
  apId : Nat
  routingPfx : String
  requestVal : Nat
  replyVal : Nat
  startTimeUs : Int
  endTimeUs : Int
deriving DecidableEq, Repr

/-- The `RecordingState` stored in the anonymous union: the two optional
`std::function` callbacks, modelled by their null tests. -/
structure RecordingState where
  hasClientCallback : Bool
  hasShardSplitCallback : Bool
deriving DecidableEq, Repr

/-- Observable callback/logger actions of a `ProxyRequestContext`. -/
inductive CtxEvent
  | clientCallbackCall (poolName : String) (index : Nat) (ap : Nat)
  | shardSplitCallbackCall (splitter : Nat)
  | primaryLog (lc : RequestLoggerContext)
  | additionalLog (lc : RequestLoggerContext)
deriving DecidableEq, Repr

/-- The fields of `ProxyRequestContext` the claims depend on.  The anonymous
union holding `context_` / `recordingState_` is modelled by `recordingState :
Option RecordingState`: it is `some` exactly when the recording member is the
active one, and reading the inactive member is undefined behaviour, modelled as
a `none` result.  `hasLogger` / `hasAdditionalLogger` are the `hasValue()`
states of the two `folly::Optional` loggers. -/
structure ProxyRequestContext where
  recording : Bool
  recordingState : Option RecordingState
  hasLogger : Bool
  hasAdditionalLogger : Bool
deriving DecidableEq, Repr

/-- `ProxyRequestContext::recordDestination`: `if (recording_ &&
recordingState_->clientCallback) recordingState_->clientCallback(...)`. The
`&&` short-circuits, so the union is only read when `recording_` holds;
reading it then while the routing member is active is undefined (`none`). -/
def recordDestination (c : ProxyRequestContext) (poolName : String) (index : Nat)
    (ap : Nat) : Option (List CtxEvent) :=
  if c.recording then
    match c.recordingState with
    | none => none
    | some rs =>
      some (if rs.hasClientCallback
            then [CtxEvent.clientCallbackCall poolName index ap] else [])
  else some []

/-- `ProxyRequestContext::recordShardSplitter`, same shape as
`recordDestination`. -/
def recordShardSplitter (c : ProxyRequestContext) (splitter : Nat) :
    Option (List CtxEvent) :=
  if c.recording then
    match c.recordingState with
    | none => none
    | some rs =>
      some (if rs.hasShardSplitCallback
            then [CtxEvent.shardSplitCallbackCall splitter] else [])
  else some []

/-- `ProxyRequestContext::onReplyReceived`: returns immediately in recording
mode; otherwise constructs a `RequestLoggerContext` and invokes `logger_->log`
then `additionalLogger_->log`.  Dereferencing an empty `folly::Optional`
(`assert(...hasValue())` in debug builds) is undefined behaviour, modelled as
`none`. -/
def onReplyReceived (c : ProxyRequestContext) (poolName : String) (ap : Nat)
    (routingPfx : String) (requestVal replyVal : Nat)
    (startTimeUs endTimeUs : Int) : Option (List CtxEvent) :=
  if c.recording then some []
  else
    let lc : RequestLoggerContext :=
      ⟨poolName, ap, routingPfx, requestVal, replyVal, startTimeUs, endTimeUs⟩
    if c.hasLogger then
      if c.hasAdditionalLogger then
        some [CtxEvent.primaryLog lc, CtxEvent.additionalLog lc]
      else none
    else none

/-- The always-accepting callback policy (all message callbacks return true). -/
def cbAlwaysTrue : CbPolicy := fun _ _ _ => true

/-- A 40-byte Caret frame under the modelled header layout: 8 header bytes
declaring `headerSize = 8`, `bodySize = 32`, followed by the body. -/
def caretFrame40 : List Nat :=
  [0x5e, 8, 0, 0, 32, 1, 0, 1] ++ List.replicate 32 0

/-- A 56-byte Caret frame: `headerSize = 8`, `bodySize = 48`. -/
def caretFrame56 : List Nat :=
  [0x5e, 8, 0, 0, 48, 2, 0, 2] ++ List.replicate 48 0

/-- A 9-byte Caret frame: `headerSize = 8`, `bodySize = 1`. -/
def caretFrame9 : List Nat := [0x5e, 8, 0, 0, 1, 7, 0, 9, 0xab]

/-- An 8-byte Caret read whose header is malformed (`headerSize = 3 < 8`). -/
def malformedCaretInput : List Nat := [0x5e, 3, 0, 0, 0, 0, 0, 0]

/-- Claim C1: for every byte sequence, feeding it to the parser one byte at a
time (an acquire/commit/dispatch cycle per byte) versus feeding it in chunks as
large as the acquired write region allows (in particular, in a single chunk
whenever it fits) produces the identical sequence of frames delivered to the
message callbacks, in the same order.  `limit` caps the bytes committed per
cycle; `limit = 1` is byte-at-a-time, and any `limit ≥ input.length` commits
the whole input in one `readDataAvailable` call when the buffer accepts it. -/
theorem chunking_equivalence (cb : CbPolicy) (input : List Nat)
    (minB maxB limit : Nat) (hminB : 1 ≤ minB) (hmaxB : 1 ≤ maxB)
    (hlimit : 1 ≤ limit) :
    framesOf (drive cb limit (initState minB maxB) input).2.2 =
      framesOf (drive cb 1 (initState minB maxB) input).2.2 :=
  (drive_frames_canonical cb limit minB maxB hlimit hminB hmaxB input).trans
    (drive_frames_canonical cb 1 minB maxB le_rfl hminB hmaxB input).symm

/-- Witness for C1 at a concrete 9-byte Caret frame: feeding all nine bytes in
one chunk and one byte at a time deliver the same single frame. -/
theorem chunking_equivalence_witness :
    (1:Nat) ≤ 16 ∧
    framesOf (drive cbAlwaysTrue 9 (initState 16 16) caretFrame9).2.2 =
      framesOf (drive cbAlwaysTrue 1 (initState 16 16) caretFrame9).2.2 :=
  ⟨by decide,
   chunking_equivalence cbAlwaysTrue caretFrame9 16 16 9 (by decide) (by decide)
     (by decide)⟩

/-- Claim C2 (code-bug evidence): feeding the concatenation of two valid Caret
frames of sizes 40 and 56 in a single chunk delivers both frames and leaves the
pending region empty, yet `parsedMessages_` still equals 0 — nothing in
`McParser.cpp` ever increments it, so it never increases by the number of
delivered frames and the 10,000-message shrink threshold is unreachable. -/
theorem parsedMessages_never_incremented :
    (framesOf (drive cbAlwaysTrue 96 (initState 256 4096)
        (caretFrame40 ++ caretFrame56)).2.2).length = 2 ∧
    (drive cbAlwaysTrue 96 (initState 256 4096)
        (caretFrame40 ++ caretFrame56)).1.pending = [] ∧
    (drive cbAlwaysTrue 96 (initState 256 4096)
        (caretFrame40 ++ caretFrame56)).1.parsedMessages = 0 :=
  ⟨rfl, rfl, rfl⟩

/-- Claim C3 (amended): when the binary header parse on the non-empty pending
region is malformed, the dispatcher emits exactly one
`parse_error(REMOTE_ERROR, "Error parsing <proto> header")` naming the
connection's protocol, returns false, and no message callback fires in the
cycle; the read buffer is left unchanged (still holding the pending bytes), not
discarded — only a callback refusal clears it. -/
theorem malformed_header_behavior (cb : CbPolicy) (s : McParserState)
    (bytes : List Nat) (hseen : s.seenFirstByte = true)
    (hproto : s.protocol = McProtocol.umbrella ∨ s.protocol = McProtocol.caret)
    (hmal : binHeaderParse s.protocol (s.pending ++ bytes) = .malformed) :
    (readDataAvailable cb s bytes).2.1 = false ∧
    (readDataAvailable cb s bytes).2.2 =
      [.parseError .remoteError (parseErrorMsg s.protocol)] ∧
    (readDataAvailable cb s bytes).1.pending = s.pending ++ bytes ∧
    framesOf (readDataAvailable cb s bytes).2.2 = [] := by
  have hlen := binHeaderParse_malformed_length hmal
  have hne : s.pending ++ bytes ≠ [] := by
    intro he
    rw [he] at hlen
    simp at hlen
  have hr := readDataAvailable_binary_spec cb s bytes hseen hproto hne
  have hm := @loopSpec_malformed cb s.protocol (s.pending ++ bytes) hmal
  refine ⟨?_, ?_, ?_, ?_⟩
  · rw [hr.2.1, hm]
  · rw [hr.1, hm]
  · rw [hr.2.2.1, hm]
  · rw [hr.1, hm]
    rfl

/-- Witness for C3 (amended) at a concrete malformed Caret header. -/
theorem malformed_header_behavior_witness :
    ((initState 16 16).seenFirstByte = true ∨ True) ∧
    (readDataAvailable cbAlwaysTrue
      { initState 16 16 with
        seenFirstByte := true
        protocol := .caret
        outOfOrder := true } malformedCaretInput).2.1 = false :=
  ⟨Or.inr trivial,
   (malformed_header_behavior cbAlwaysTrue
     { initState 16 16 with
       seenFirstByte := true
       protocol := .caret
       outOfOrder := true } malformedCaretInput rfl (Or.inr rfl) (by decide)).1⟩

/-- Claim C3 counterexample: feeding a malformed Caret header in one cycle
emits the parse error and returns false, but the final read buffer still holds
all eight bytes — it is not discarded, contradicting the claim as stated. -/
theorem malformed_header_buffer_not_discarded :
    (drive cbAlwaysTrue 8 (initState 16 16) malformedCaretInput).2.2 =
      [.parseError .remoteError "Error parsing caret header"] ∧
    (drive cbAlwaysTrue 8 (initState 16 16) malformedCaretInput).2.1 = false ∧
    (drive cbAlwaysTrue 8 (initState 16 16) malformedCaretInput).1.pending =
      malformedCaretInput ∧
    (drive cbAlwaysTrue 8 (initState 16 16) malformedCaretInput).1.pending ≠ [] :=
  ⟨rfl, rfl, rfl, by decide⟩

/-- Claim C4 (amended): in every parser state reachable through cycles whose
`readDataAvailable` calls all returned true, once `first_byte_seen` is true the
protocol is not Unknown, and `out_of_order` is true exactly when the protocol
is Umbrella or Caret.  (When a call returns false — failed protocol detection —
the state may hold `seenFirstByte = true` with `protocol = Unknown`; see the
counterexample.) -/
theorem parser_protocol_invariant (cb : CbPolicy) (s : McParserState)
    (h : ReachableOk cb s) :
    (s.seenFirstByte = true → s.protocol ≠ McProtocol.unknown) ∧
    (s.outOfOrder = true ↔
      (s.protocol = McProtocol.umbrella ∨ s.protocol = McProtocol.caret)) := by
  induction h with
  | init minB maxB =>
    constructor
    · intro hh
      exact absurd hh (by simp [initState])
    · simp [initState]
  | step s0 bytes hprev hlen hret ih =>
    have hg := getReadBuffer_fieldsPreserved s0
    refine readDataAvailable_invariant cb (getReadBuffer s0).1 bytes ?_ ?_ hret
    · intro hh
      rw [hg.2.1]
      exact ih.1 (by rw [← hg.2.2.1]; exact hh)
    · rw [hg.2.2.2.1, hg.2.1]
      exact ih.2

/-- Witness for C4 (amended): the invariant holds in the state reached by one
successful cycle feeding the ascii byte 0x61. -/
theorem parser_protocol_invariant_witness :
    (((readDataAvailable cbAlwaysTrue (getReadBuffer (initState 16 16)).1
        [0x61]).1.seenFirstByte = true →
      (readDataAvailable cbAlwaysTrue (getReadBuffer (initState 16 16)).1
        [0x61]).1.protocol ≠ McProtocol.unknown) ∧
     ((readDataAvailable cbAlwaysTrue (getReadBuffer (initState 16 16)).1
        [0x61]).1.outOfOrder = true ↔
      ((readDataAvailable cbAlwaysTrue (getReadBuffer (initState 16 16)).1
        [0x61]).1.protocol = McProtocol.umbrella ∨
       (readDataAvailable cbAlwaysTrue (getReadBuffer (initState 16 16)).1
        [0x61]).1.protocol = McProtocol.caret))) :=
  parser_protocol_invariant cbAlwaysTrue _
    (ReachableOk.step (initState 16 16) [0x61] (ReachableOk.init 16 16)
      (by decide) (by decide))

/-- Claim C4 counterexample: after one cycle feeding the single byte 0x01
(outside every protocol class), a reachable state has `seenFirstByte = true`
while `protocol = Unknown`, so the claim over all states reachable by any
sequence of `readDataAvailable` calls is false. -/
theorem protocol_unknown_reachable :
    ReachableAny cbAlwaysTrue
      (readDataAvailable cbAlwaysTrue (getReadBuffer (initState 16 16)).1 [1]).1 ∧
    (readDataAvailable cbAlwaysTrue (getReadBuffer (initState 16 16)).1
      [1]).1.seenFirstByte = true ∧
    (readDataAvailable cbAlwaysTrue (getReadBuffer (initState 16 16)).1
      [1]).1.protocol = McProtocol.unknown :=
  ⟨ReachableAny.step (initState 16 16) [1] (ReachableAny.init 16 16) (by decide),
   rfl, rfl⟩

/-- Claim C5: every `getReadBuffer` call performs exactly one of three
adjustments, in priority order — (a) reset cursors when the pending region is
empty and capacity is positive, (b) otherwise shift the pending region to the
front when there is a consumed prefix, (c) otherwise reserve so the tailroom is
at least `bufferSize_` — and the returned `max_len` is at least 1 (the model
has no failing allocator). -/
theorem getReadBuffer_adjustments (s : McParserState) (h : 1 ≤ s.bufferSize) :
    ((s.pending = [] ∧ 0 < capacity s) →
      (getReadBuffer s).1 = { s with headroom := 0, tailroom := capacity s }) ∧
    (¬(s.pending = [] ∧ 0 < capacity s) → 0 < s.headroom →
      (getReadBuffer s).1 =
        { s with headroom := 0, tailroom := s.tailroom + s.headroom }) ∧
    (¬(s.pending = [] ∧ 0 < capacity s) → ¬ 0 < s.headroom →
      (getReadBuffer s).1 = ioReserveTail s.bufferSize s ∧
      s.bufferSize ≤ (getReadBuffer s).1.tailroom) ∧
    1 ≤ (getReadBuffer s).2 := by
  refine ⟨?_, ?_, ?_, getReadBuffer_maxLen_pos s h⟩
  · intro hc
    unfold getReadBuffer
    rw [if_pos hc]
  · intro hc hh
    unfold getReadBuffer
    rw [if_neg hc, if_pos hh]
  · intro hc hh
    unfold getReadBuffer
    rw [if_neg hc, if_neg hh]
    exact ⟨rfl, ioReserveTail_le_tailroom _ _⟩

/-- Witness for C5 at the fresh parser state. -/
theorem getReadBuffer_adjustments_witness :
    (1:Nat) ≤ (initState 16 16).bufferSize ∧ 1 ≤ (getReadBuffer (initState 16 16)).2 :=
  ⟨by decide, (getReadBuffer_adjustments (initState 16 16) (by decide)).2.2.2⟩

/-- Claim C6: when a complete binary header has been parsed (the pending region
holds at least `headerSize` bytes) but the pending bytes plus tail capacity are
smaller than `headerSize + bodySize`, the dispatcher performs exactly one
growth and then waits for more data: it returns true with no callback events,
the pending bytes are untouched, `bufferSize_` is raised to
`max(bufferSize_, headerSize + bodySize)`, and afterwards the buffer holds at
least `headerSize + bodySize` bytes of total space. -/
theorem growth_on_incomplete_body (cb : CbPolicy) (s : McParserState)
    (info : UmbrellaMessageInfo)
    (hok : binHeaderParse s.protocol s.pending = .ok info)
    (hhdr : info.headerSize ≤ s.pending.length)
    (hlt : s.pending.length < info.headerSize + info.bodySize)
    (hgrow : s.pending.length + s.tailroom < info.headerSize + info.bodySize) :
    (readUmbrellaOrCaretData cb s).2.1 = true ∧
    (readUmbrellaOrCaretData cb s).2.2 = [] ∧
    (readUmbrellaOrCaretData cb s).1.pending = s.pending ∧
    (readUmbrellaOrCaretData cb s).1.bufferSize =
      max s.bufferSize (info.headerSize + info.bodySize) ∧
    info.headerSize + info.bodySize ≤
      (readUmbrellaOrCaretData cb s).1.pending.length +
        (readUmbrellaOrCaretData cb s).1.tailroom := by
  have hlen := binHeaderParse_ok_length hok
  have hp : s.pending ≠ [] := by
    intro he
    rw [he] at hlen
    simp at hlen
  unfold readUmbrellaOrCaretData
  simp only [readLoopF, hp, ite_false, if_neg, hok, Nat.not_le.mpr hlt,
    Nat.not_lt.mpr hhdr, hgrow, ite_true, if_pos]
  have hresv := ioReserveTail_le_tailroom
    (max s.bufferSize (info.headerSize + info.bodySize) - s.pending.length)
    { s with bufferSize := max s.bufferSize (info.headerSize + info.bodySize) }
  have hf := ioReserveTail_fieldsPreserved
    (max s.bufferSize (info.headerSize + info.bodySize) - s.pending.length)
    { s with bufferSize := max s.bufferSize (info.headerSize + info.bodySize) }
  have hpnd := ioReserveTail_pending
    (max s.bufferSize (info.headerSize + info.bodySize) - s.pending.length)
    { s with bufferSize := max s.bufferSize (info.headerSize + info.bodySize) }
  refine ⟨by trivial, by trivial, by simpa using hpnd, by simpa using hf.2.2.2.2.1, ?_⟩
  have h1 : ({ s with
               bufferSize := max s.bufferSize (info.headerSize + info.bodySize) } :
      McParserState).pending.length = s.pending.length := rfl
  rw [h1] at hpnd hresv
  rw [hpnd]
  omega

/-- Witness for C6: a Caret header declaring a 100-byte body inside a 16-byte
buffer triggers the growth. -/
theorem growth_on_incomplete_body_witness :
    binHeaderParse McProtocol.caret [0x5e, 8, 0, 0, 100, 1, 0, 1] =
      .ok ⟨8, 100, 1, 1⟩ ∧
    (readUmbrellaOrCaretData cbAlwaysTrue
      { bufferSize := 16, maxBufferSize := 64, headroom := 0,
        pending := [0x5e, 8, 0, 0, 100, 1, 0, 1], tailroom := 8,
        seenFirstByte := true, protocol := .caret, outOfOrder := true,
        parsedMessages := 0 }).1.bufferSize = max 16 108 :=
  ⟨by decide,
   (growth_on_incomplete_body cbAlwaysTrue
     { bufferSize := 16, maxBufferSize := 64, headroom := 0,
       pending := [0x5e, 8, 0, 0, 100, 1, 0, 1], tailroom := 8,
       seenFirstByte := true, protocol := .caret, outOfOrder := true,
       parsedMessages := 0 } ⟨8, 100, 1, 1⟩ (by decide) (by decide) (by decide)
     (by decide)).2.2.2.1⟩

/-- Claim C7: the read buffer is replaced by `shrinkBuffer` if and only if
`parsedMessages_ ≥ 10,000`, `capacity > maxBufferSize_` and the pending region
is empty; when that happens the buffer becomes a fresh allocation of size
`min(bufferSize_, maxBufferSize_)` and the counter resets to 0; and every
binary dispatch cycle ends by applying `shrinkBuffer` to the post-loop state. -/
theorem shrinkBuffer_spec (s : McParserState) :
    (shrinkBuffer s ≠ s ↔
      (kAdjustBufferSizeInterval ≤ s.parsedMessages ∧
        s.maxBufferSize < capacity s ∧ s.pending = [])) ∧
    ((kAdjustBufferSizeInterval ≤ s.parsedMessages ∧
        s.maxBufferSize < capacity s ∧ s.pending = []) →
      shrinkBuffer s =
        { s with parsedMessages := 0,
                 bufferSize := min s.bufferSize s.maxBufferSize,
                 headroom := 0, pending := [],
                 tailroom := min s.bufferSize s.maxBufferSize }) ∧
    (∀ cb : CbPolicy,
      (s.protocol = McProtocol.umbrella ∨ s.protocol = McProtocol.caret) →
      (dispatchProtocol cb s).1 = shrinkBuffer (readUmbrellaOrCaretData cb s).1) := by
  refine ⟨⟨?_, ?_⟩, ?_, ?_⟩
  · intro hne
    by_contra hcond
    exact hne (by unfold shrinkBuffer; rw [if_neg hcond])
  · intro hcond heq
    have := congrArg McParserState.parsedMessages heq
    unfold shrinkBuffer at this
    rw [if_pos hcond] at this
    simp only at this
    have h10 := hcond.1
    unfold kAdjustBufferSizeInterval at h10
    omega
  · intro hcond
    unfold shrinkBuffer
    rw [if_pos hcond]
  · intro cb hproto
    unfold dispatchProtocol
    rw [if_pos hproto]

/-- Witness for C7: a drained oversized buffer with a saturated counter is
replaced by a fresh `min(bufferSize, maxBufferSize)` allocation. -/
theorem shrinkBuffer_spec_witness :
    shrinkBuffer
      { bufferSize := 16, maxBufferSize := 8, headroom := 0, pending := [],
        tailroom := 16, seenFirstByte := true, protocol := .caret,
        outOfOrder := true, parsedMessages := 10000 } =
      { bufferSize := 8, maxBufferSize := 8, headroom := 0, pending := [],
        tailroom := 8, seenFirstByte := true, protocol := .caret,
        outOfOrder := true, parsedMessages := 0 } :=
  ((shrinkBuffer_spec
    { bufferSize := 16, maxBufferSize := 8, headroom := 0, pending := [],
      tailroom := 16, seenFirstByte := true, protocol := .caret,
      outOfOrder := true, parsedMessages := 10000 }).2.1 (by decide)).trans
    (by decide)

/-- Claim C8: `onReplyReceived` returns immediately without invoking any logger
when the context is recording; otherwise it constructs the logger context and
invokes the primary logger and then the additional logger, in that order, under
the precondition that both loggers were installed at construction. -/
theorem onReplyReceived_spec (c : ProxyRequestContext) (poolName : String)
    (ap : Nat) (routingPfx : String) (requestVal replyVal : Nat)
    (startTimeUs endTimeUs : Int) :
    (c.recording = true →
      onReplyReceived c poolName ap routingPfx requestVal replyVal startTimeUs
        endTimeUs = some []) ∧
    (c.recording = false → c.hasLogger = true → c.hasAdditionalLogger = true →
      onReplyReceived c poolName ap routingPfx requestVal replyVal startTimeUs
        endTimeUs =
        some [CtxEvent.primaryLog
                ⟨poolName, ap, routingPfx, requestVal, replyVal, startTimeUs,
                 endTimeUs⟩,
              CtxEvent.additionalLog
                ⟨poolName, ap, routingPfx, requestVal, replyVal, startTimeUs,
                 endTimeUs⟩]) := by
  constructor
  · intro hrec
    unfold onReplyReceived
    rw [if_pos hrec]
  · intro hrec hlog hadd
    unfold onReplyReceived
    rw [if_neg (by rw [hrec]; simp), if_pos hlog, if_pos hadd]

/-- Witness for C8: a routing-mode context with both loggers installed logs
primary then additional. -/
theorem onReplyReceived_spec_witness :
    onReplyReceived ⟨false, none, true, true⟩ "poolA" 3 "pfx" 11 12 100 200 =
      some [CtxEvent.primaryLog ⟨"poolA", 3, "pfx", 11, 12, 100, 200⟩,
            CtxEvent.additionalLog ⟨"poolA", 3, "pfx", 11, 12, 100, 200⟩] :=
  (onReplyReceived_spec ⟨false, none, true, true⟩ "poolA" 3 "pfx" 11 12 100
    200).2 rfl rfl rfl

/-- Claim C9: on a non-recording context `recordDestination` and
`recordShardSplitter` return without invoking any callback and without reading
the recording member of the union (the result is defined — `some []` — even
though the union's recording member is inactive): always a harmless no-op. -/
theorem record_noop_when_not_recording (c : ProxyRequestContext)
    (poolName : String) (index ap splitter : Nat) (h : c.recording = false) :
    recordDestination c poolName index ap = some [] ∧
    recordShardSplitter c splitter = some [] := by
  constructor
  · unfold recordDestination
    rw [if_neg (by rw [h]; simp)]
  · unfold recordShardSplitter
    rw [if_neg (by rw [h]; simp)]

/-- Witness for C9 on a routing-mode context whose union holds the routing
member (`recordingState = none`): both calls are still defined no-ops. -/
theorem record_noop_when_not_recording_witness :
    recordDestination ⟨false, none, true, true⟩ "poolA" 3 7 = some [] ∧
    recordShardSplitter ⟨false, none, true, true⟩ 5 = some [] :=
  record_noop_when_not_recording ⟨false, none, true, true⟩ "poolA" 3 7 5 rfl

/-- Claim C10: a `readDataAvailable` call that appends zero bytes while nothing
is pending returns true, invokes no callback, and leaves the parser state
(including `seenFirstByte`) unchanged — protocol detection is deferred to the
first non-empty read. -/
theorem readDataAvailable_empty_noop (cb : CbPolicy) (s : McParserState)
    (h : s.pending = []) :
    readDataAvailable cb s [] = (s, true, []) := by
  have happ : ioAppend s [] = s := by
    unfold ioAppend
    simp
  unfold readDataAvailable
  rw [happ, if_pos h]

/-- Witness for C10 at the fresh parser state: the empty read is the identity
and in particular `seenFirstByte` stays false. -/
theorem readDataAvailable_empty_noop_witness :
    readDataAvailable cbAlwaysTrue (initState 16 16) [] =
      (initState 16 16, true, []) ∧
    (initState 16 16).seenFirstByte = false :=
  ⟨readDataAvailable_empty_noop cbAlwaysTrue (initState 16 16) rfl, rfl⟩

end Mcrouter
